import Mathlib

/-!
Verification of the `pool` package (connection-pool adapter and metadata
tracker) and the encoder-pool registry of the logging facility.

Times and durations are modelled as `Int` nanoseconds: Go's `time.Time`
zero value is `0`, `time.Now()` readings are passed explicitly as a `now`
argument wherever the Go code calls `time.Now()` or `time.Since`.
-/

namespace SocketPool

/-- Modelled from the spec: the pool's error values `ErrBadValue`,
`ErrOutOfMaxIdleTime`, `ErrOutOfMaxLife` are declared in a pool source file
not provided; the spec names them as distinct validation failures.
`closeInRW` embeds `errCloseInRW` from conn.go; `other n` stands for an
arbitrary I/O error coming from the raw connection or the probe. -/
inductive Err where
  | badValue
  | outOfMaxIdleTime
  | outOfMaxLife
  | closeInRW
  | other (n : Nat)
deriving DecidableEq, Repr

/-- Modelled from the spec: the pool `Option` type is declared in a pool
source file not provided; the spec gives the two fields the claims need:
`MaxIdleTime` and `MaxLifeTime`, both durations, zero meaning unbounded. -/
structure Opt where
  maxIdleTime : Int
  maxLifeTime : Int
deriving DecidableEq, Repr

/-- The `Meta` record of meta.go: CreateTime, LastUseTime, UsedTimes,
UsedDuration. -/
structure Meta where
  createTime : Int
  lastUseTime : Int
  usedTimes : Nat
  usedDuration : Int
deriving DecidableEq, Repr

/-- The `MetaInfo` wrapper of meta.go: the `Meta` record plus the `using`
flag (the mutex is a concurrency artifact with no sequential content). -/
structure MetaInfo where
  meta : Meta
  usingFlag : Bool
deriving DecidableEq, Repr

/-- `NewMetaInfo` of meta.go: only `CreateTime` is stamped with the current
time; every other field keeps its zero value. -/
def NewMetaInfo (now : Int) : MetaInfo :=
  { meta := { createTime := now, lastUseTime := 0, usedTimes := 0, usedDuration := 0 }
    usingFlag := false }

/-- `MetaInfo.PEMarkUsing` of meta.go: sets `using`, stamps `LastUseTime`,
increments `UsedTimes`. -/
def PEMarkUsing (now : Int) (w : MetaInfo) : MetaInfo :=
  { w with
    usingFlag := true
    meta := { w.meta with lastUseTime := now, usedTimes := w.meta.usedTimes + 1 } }

/-- `MetaInfo.PEMarkIdle` of meta.go: clears `using`, adds the elapsed time
since `LastUseTime` into `UsedDuration`, stamps `LastUseTime`. -/
def PEMarkIdle (now : Int) (w : MetaInfo) : MetaInfo :=
  { w with
    usingFlag := false
    meta := { w.meta with
              usedDuration := w.meta.usedDuration + (now - w.meta.lastUseTime)
              lastUseTime := now } }

/-- `MetaInfo.Active` of meta.go: `ErrOutOfMaxIdleTime` when `MaxIdleTime`
is positive and the idle time has reached it, else `ErrOutOfMaxLife` when
`MaxLifeTime` is positive and the age has reached it, else nil. -/
def MetaActive (w : MetaInfo) (opt : Opt) (now : Int) : Option Err :=
  if opt.maxIdleTime > 0 && now - w.meta.lastUseTime ≥ opt.maxIdleTime then
    some Err.outOfMaxIdleTime
  else if opt.maxLifeTime > 0 && now - w.meta.createTime ≥ opt.maxLifeTime then
    some Err.outOfMaxLife
  else
    none

/-- `MetaInfo.PEMeta` of meta.go: returns a copy of the `Meta` record. -/
def PEMeta (w : MetaInfo) : Meta := w.meta

/-- The in-flight marker values of conn.go: `statInit`, `statStart`,
`statDone`. -/
inductive Stat where
  | init
  | start
  | done
deriving DecidableEq, Repr

/-- The universe of `net.Conn` values relevant to the pool sources: a base
transport connection (identified by a tag, carrying its read and write
deadlines; it implements neither `PEActiver` nor `Raw() net.Conn`), or a
`pConn` adapter of conn.go wrapping another connection and carrying the
adapter state: last error, the two in-flight markers, the embedded
`MetaInfo`, and the owning pool's `Option` (the adapter reaches it through
`c.pool.Option()`). -/
inductive Conn where
  | base (id : Nat) (readDL writeDL : Int)
  | pconn (raw : Conn) (lastErr : Option Err) (readStat writeStat : Stat)
      (mi : MetaInfo) (poolOpt : Opt)
deriving DecidableEq, Repr

/-- `pConn.setErr` of conn.go: record the error only when it is non-nil. -/
def setErr (le e : Option Err) : Option Err :=
  match e with
  | some x => some x
  | none => le

/-- `pConn.isDoing` of conn.go: a read or write is in flight. -/
def isDoing (rs ws : Stat) : Bool :=
  rs == Stat.start || ws == Stat.start

/-- Projection: the wrapped connection of an adapter (identity on a base
connection, which has no wrapped connection). -/
def Conn.rawOf : Conn → Conn
  | .pconn raw _ _ _ _ _ => raw
  | c => c

/-- Projection: the last recorded error of an adapter. -/
def Conn.lastErrOf : Conn → Option Err
  | .pconn _ le _ _ _ _ => le
  | _ => none

/-- Projection: the read in-flight marker of an adapter. -/
def Conn.readStatOf : Conn → Stat
  | .pconn _ _ rs _ _ _ => rs
  | _ => Stat.init

/-- Projection: the write in-flight marker of an adapter. -/
def Conn.writeStatOf : Conn → Stat
  | .pconn _ _ _ ws _ _ => ws
  | _ => Stat.init

/-- Projection: the embedded `MetaInfo` of an adapter. -/
def Conn.metaOf : Conn → MetaInfo
  | .pconn _ _ _ _ mi _ => mi
  | _ => NewMetaInfo 0

/-- Whether the value implements the optional `PEActiver` capability: among
the connections of this package only the `pConn` adapter does. -/
def isPEActiver : Conn → Bool
  | .pconn _ _ _ _ _ _ => true
  | _ => false

/-- Whether the value implements the optional `interface{ Raw() net.Conn }`
capability: among the connections of this package only `pConn` does. -/
def hasRawMethod : Conn → Bool
  | .pconn _ _ _ _ _ _ => true
  | _ => false

/-- `pConn.Raw` of conn.go: returns the connection passed in at wrap time,
which need not be the bottom-most `net.Conn`. -/
def RawAccessor : Conn → Conn
  | .pconn raw _ _ _ _ _ => raw
  | c => c

/-- `pConn.getRawConn` of conn.go: if the wrapped connection implements
`Raw() net.Conn` the result of that call, else the wrapped connection
itself. -/
def getRawConn : Conn → Conn
  | .pconn raw _ _ _ _ _ =>
      match raw with
      | .pconn r _ _ _ _ _ => r
      | b => b
  | c => c

/-- `net.Conn.SetDeadline`: on a base transport connection it sets both the
read and the write deadline and succeeds; on a `pConn` it is the method of
conn.go, delegating to the wrapped connection and recording a returned
error via `setErr`. -/
def Conn.setDeadline (t : Int) : Conn → Option Err × Conn
  | .base id _ _ => (none, .base id t t)
  | .pconn raw le rs ws mi o =>
      let r := Conn.setDeadline t raw
      (r.1, .pconn r.2 (setErr le r.1) rs ws mi o)

/-- `net.Conn.SetReadDeadline`: on a base transport connection it sets the
read deadline and succeeds; on a `pConn` it is the method of conn.go. -/
def Conn.setReadDeadline (t : Int) : Conn → Option Err × Conn
  | .base id _ w => (none, .base id t w)
  | .pconn raw le rs ws mi o =>
      let r := Conn.setReadDeadline t raw
      (r.1, .pconn r.2 (setErr le r.1) rs ws mi o)

/-- `net.Conn.SetWriteDeadline`: on a base transport connection it sets the
write deadline and succeeds; on a `pConn` it is the method of conn.go. -/
def Conn.setWriteDeadline (t : Int) : Conn → Option Err × Conn
  | .base id r _ => (none, .base id r t)
  | .pconn raw le rs ws mi o =>
      let s := Conn.setWriteDeadline t raw
      (s.1, .pconn s.2 (setErr le s.1) rs ws mi o)

/-- `pConn.Read` of conn.go with the delegate call `c.raw.Read(b)`
abstracted: `rawRes` is the `(n, err)` the wrapped connection returns and
`rawAfter` its state afterwards. The marker passes through `started`
during the call and stands at `done` when the method returns; the returned
error is recorded via `setErr`. -/
def pconnRead (rawRes : Nat × Option Err) (rawAfter : Conn) :
    Conn → (Nat × Option Err) × Conn
  | .pconn _ le _ ws mi o =>
      (rawRes, .pconn rawAfter (setErr le rawRes.2) Stat.done ws mi o)
  | c => (rawRes, c)

/-- `pConn.Write` of conn.go with the delegate call abstracted, as in
`pconnRead`. -/
def pconnWrite (rawRes : Nat × Option Err) (rawAfter : Conn) :
    Conn → (Nat × Option Err) × Conn
  | .pconn _ le rs _ mi o =>
      (rawRes, .pconn rawAfter (setErr le rawRes.2) rs Stat.done mi o)
  | c => (rawRes, c)

/-- `pConn.PEReset` of conn.go: calls its own `SetDeadline`,
`SetReadDeadline`, `SetWriteDeadline` with the zero time (discarding the
returned errors), then sets both in-flight markers to `init`. -/
def pconnPEReset (c : Conn) : Conn :=
  let c1 := (Conn.setDeadline 0 c).2
  let c2 := (Conn.setReadDeadline 0 c1).2
  let c3 := (Conn.setWriteDeadline 0 c2).2
  match c3 with
  | .pconn raw le _ _ mi o => .pconn raw le Stat.init Stat.init mi o
  | c4 => c4

/-- The state change performed by `pConn.Close` of conn.go before it hands
the adapter to the pool: when no error is recorded and an operation is in
flight, record `errCloseInRW`. -/
def closeUpdate : Conn → Conn
  | .pconn raw le rs ws mi o =>
      .pconn raw (if le == none && isDoing rs ws then some Err.closeInRW else le)
        rs ws mi o
  | c => c

/-- `pConn.Close` of conn.go with the owning pool's `Put` abstracted as
`put` (the `SimplePool` implementation is outside the provided sources):
update the state, then return `c.pool.Put(c)`. The second component is the
adapter state `Put` receives. -/
def pconnClose (put : Conn → Option Err) (c : Conn) : Option Err × Conn :=
  (put (closeUpdate c), closeUpdate c)

/-- `pConn.PEActive` of conn.go with the liveness probe `connCheck`
abstracted as `probe` (conncheck.go is outside the provided sources):
`ErrBadValue` when an error is recorded or an operation is in flight, else
the `MetaInfo.Active` check against the pool's `Option`, else the nested
`PEActive` when the wrapped connection implements `PEActiver`, else the
probe on `getRawConn`; the first failure is returned unchanged. -/
def pconnPEActive (probe : Conn → Option Err) (now : Int) : Conn → Option Err
  | .base _ _ _ => none
  | .pconn raw le rs ws mi o =>
      if le.isSome || isDoing rs ws then some Err.badValue
      else
        match MetaActive mi o now with
        | some ea => some ea
        | none =>
          match (if isPEActiver raw then pconnPEActive probe now raw else none) with
          | some ea => some ea
          | none => probe (getRawConn (.pconn raw le rs ws mi o))

/-- All base transport connections reachable under a connection have both
deadlines at the zero time. -/
def deadlinesZero : Conn → Bool
  | .base _ r w => r == 0 && w == 0
  | .pconn raw _ _ _ _ _ => deadlinesZero raw

/-- Written from the spec's words for the refinement in C8: the fully
unwrapped innermost transport connection, reached by unwrapping every
level of nested adapters. -/
def specInnermost : Conn → Conn
  | .pconn raw _ _ _ _ _ => specInnermost raw
  | c => c

/-- The universe of `interface{}` values `ReadMeta` of meta.go may receive:
either a value implementing the `PEMeta() Meta` capability (carrying its
`MetaInfo`) or one that does not (tagged by a number). -/
inductive Item where
  | withMeta (w : MetaInfo)
  | plain (n : Nat)
deriving DecidableEq, Repr

/-- The observable outcome of `ReadMeta`: a returned `Meta`, or the panic
an unchecked type assertion raises. -/
inductive ReadMetaResult where
  | ok (m : Meta)
  | panicked
deriving DecidableEq, Repr

/-- `ReadMeta` of meta.go: `item.(PEMeta).PEMeta()` — the unchecked type
assertion panics when the value does not implement the capability. -/
def ReadMeta : Item → ReadMetaResult
  | .withMeta w => .ok (PEMeta w)
  | .plain _ => .panicked

/-- One operation on a `MetaInfo`, for sequences of marks. -/
inductive MOp where
  | markUsing
  | markIdle
deriving DecidableEq, Repr

/-- Apply one mark operation at the given clock reading. -/
def applyMOp (w : MetaInfo) : MOp × Int → MetaInfo
  | (MOp.markUsing, t) => PEMarkUsing t w
  | (MOp.markIdle, t) => PEMarkIdle t w

/-- Run a sequence of mark operations, each paired with its clock
reading. -/
def runMOps (w : MetaInfo) : List (MOp × Int) → MetaInfo
  | [] => w
  | p :: rest => runMOps (applyMOp w p) rest

/-- The clock readings of the sequence are no earlier than `t` and
non-decreasing along the sequence. -/
def nondecFrom (t : Int) : List (MOp × Int) → Bool
  | [] => true
  | (_, r) :: rest => decide (t ≤ r) && nondecFrom r rest

/-- Run `k` complete use-then-release cycles: each pair `(tu, ti)` is a
`PEMarkUsing` at clock `tu` followed by a `PEMarkIdle` at clock `ti`. -/
def runCycles (w : MetaInfo) : List (Int × Int) → MetaInfo
  | [] => w
  | (tu, ti) :: rest => runCycles (PEMarkIdle ti (PEMarkUsing tu w)) rest

/-- The sum of the durations spent between each mark-using and its
matching mark-idle. -/
def cycleSum : List (Int × Int) → Int
  | [] => 0
  | (tu, ti) :: rest => (ti - tu) + cycleSum rest

end SocketPool

namespace LogEncoding

/-- Encoder pools are opaque to the registry logic; distinct numbers stand
for distinct `EncoderPool` objects. -/
abbrev EncoderPool := Nat

/-- `DefaultTextEncoderPool` of the logging source file. -/
def DefaultTextEncoderPool : EncoderPool := (0 : Nat)

/-- `DefaultJSONEncoderPool` of the logging source file. -/
def DefaultJSONEncoderPool : EncoderPool := (1 : Nat)

/-- The registry `encoderPools`, a map from name to pool, embedded as an
association list with distinct keys. Names are strings (the Go key type is
`interface{}`; the registered names in the sources are strings). -/
abbrev Registry := List (String × EncoderPool)

/-- `encoderPoolNameDefaultText`. -/
def encoderPoolNameDefaultText : String := "default_text"

/-- `encoderPoolNameDefaultJSON`. -/
def encoderPoolNameDefaultJSON : String := "default_json"

/-- The initial value of `encoderPools`: the two default pools are present
from the start. -/
def initialRegistry : Registry :=
  [(encoderPoolNameDefaultText, DefaultTextEncoderPool),
   (encoderPoolNameDefaultJSON, DefaultJSONEncoderPool)]

/-- Map membership test: `_, has := encoderPools[name]`. -/
def hasName (reg : Registry) (name : String) : Bool :=
  match reg with
  | [] => false
  | p :: rest => p.1 == name || hasName rest name

/-- Map lookup, nil for a missing key: `encoderPools[name]`. -/
def lookupName (reg : Registry) (name : String) : Option EncoderPool :=
  match reg with
  | [] => none
  | p :: rest => if p.1 == name then some p.2 else lookupName rest name

/-- The two default names are present in the registry (true of the initial
registry and preserved by registration). -/
def hasDefaults (reg : Registry) : Bool :=
  hasName reg encoderPoolNameDefaultText && hasName reg encoderPoolNameDefaultJSON

/-- The error `fmt.Errorf("name=%v already exists", name)`. -/
inductive RegError where
  | alreadyExists (name : String)
deriving DecidableEq, Repr

/-- `RegisterEncoderPool` of the logging source file: error when the name
is already present, leaving the map unchanged; otherwise add the mapping
and return nil. The second component is the registry state afterwards. -/
def RegisterEncoderPool (reg : Registry) (name : String) (p : EncoderPool) :
    Option RegError × Registry :=
  if hasName reg name then (some (RegError.alreadyExists name), reg)
  else (none, reg ++ [(name, p)])

/-- `GetEncoderPool` of the logging source file: the two default names are
answered by the constants directly; any other name is looked up in the
map, nil when absent. -/
def GetEncoderPool (reg : Registry) (name : String) : Option EncoderPool :=
  if name == encoderPoolNameDefaultText then some DefaultTextEncoderPool
  else if name == encoderPoolNameDefaultJSON then some DefaultJSONEncoderPool
  else lookupName reg name

end LogEncoding

namespace SocketPool

theorem setDeadline_fst (t : Int) (c : Conn) : (Conn.setDeadline t c).1 = none := by
  induction c with
  | base id r w => rfl
  | pconn raw le rs ws mi o ih => simp [Conn.setDeadline, ih]

theorem setReadDeadline_fst (t : Int) (c : Conn) : (Conn.setReadDeadline t c).1 = none := by
  induction c with
  | base id r w => rfl
  | pconn raw le rs ws mi o ih => simp [Conn.setReadDeadline, ih]

theorem setWriteDeadline_fst (t : Int) (c : Conn) : (Conn.setWriteDeadline t c).1 = none := by
  induction c with
  | base id r w => rfl
  | pconn raw le rs ws mi o ih => simp [Conn.setWriteDeadline, ih]

theorem setDeadline_pconn (t : Int) (raw : Conn) (le : Option Err) (rs ws : Stat)
    (mi : MetaInfo) (o : Opt) :
    Conn.setDeadline t (Conn.pconn raw le rs ws mi o) =
      (none, Conn.pconn (Conn.setDeadline t raw).2 le rs ws mi o) := by
  simp [Conn.setDeadline, setDeadline_fst, setErr]

theorem setReadDeadline_pconn (t : Int) (raw : Conn) (le : Option Err) (rs ws : Stat)
    (mi : MetaInfo) (o : Opt) :
    Conn.setReadDeadline t (Conn.pconn raw le rs ws mi o) =
      (none, Conn.pconn (Conn.setReadDeadline t raw).2 le rs ws mi o) := by
  simp [Conn.setReadDeadline, setReadDeadline_fst, setErr]

theorem setWriteDeadline_pconn (t : Int) (raw : Conn) (le : Option Err) (rs ws : Stat)
    (mi : MetaInfo) (o : Opt) :
    Conn.setWriteDeadline t (Conn.pconn raw le rs ws mi o) =
      (none, Conn.pconn (Conn.setWriteDeadline t raw).2 le rs ws mi o) := by
  simp [Conn.setWriteDeadline, setWriteDeadline_fst, setErr]

theorem pconnPEReset_pconn (raw : Conn) (le : Option Err) (rs ws : Stat)
    (mi : MetaInfo) (o : Opt) :
    pconnPEReset (Conn.pconn raw le rs ws mi o) =
      Conn.pconn
        (Conn.setWriteDeadline 0
          (Conn.setReadDeadline 0 (Conn.setDeadline 0 raw).2).2).2
        le Stat.init Stat.init mi o := by
  simp [pconnPEReset, setDeadline_pconn, setReadDeadline_pconn, setWriteDeadline_pconn]

theorem deadlinesZero_setDeadline (c : Conn) :
    deadlinesZero (Conn.setDeadline 0 c).2 = true := by
  induction c with
  | base id r w => simp [Conn.setDeadline, deadlinesZero]
  | pconn raw le rs ws mi o ih => simp [Conn.setDeadline, deadlinesZero, ih]

theorem deadlinesZero_setReadDeadline (c : Conn) (h : deadlinesZero c = true) :
    deadlinesZero (Conn.setReadDeadline 0 c).2 = true := by
  induction c with
  | base id r w =>
      simp [deadlinesZero] at h
      simp [Conn.setReadDeadline, deadlinesZero, h]
  | pconn raw le rs ws mi o ih =>
      simp [deadlinesZero] at h
      simp [Conn.setReadDeadline, deadlinesZero]
      exact ih h

theorem deadlinesZero_setWriteDeadline (c : Conn) (h : deadlinesZero c = true) :
    deadlinesZero (Conn.setWriteDeadline 0 c).2 = true := by
  induction c with
  | base id r w =>
      simp [deadlinesZero] at h
      simp [Conn.setWriteDeadline, deadlinesZero, h]
  | pconn raw le rs ws mi o ih =>
      simp [deadlinesZero] at h
      simp [Conn.setWriteDeadline, deadlinesZero]
      exact ih h

/-- C7: after `PEReset` both in-flight markers are `init` and the read and
write deadlines of every transport connection under the adapter stand at
the zero time, so no residual deadline from a previous borrower survives;
the metadata and the recorded error are untouched. -/
theorem pereset_clears_deadlines_and_markers (raw : Conn) (le : Option Err)
    (rs ws : Stat) (mi : MetaInfo) (o : Opt) :
    Conn.readStatOf (pconnPEReset (Conn.pconn raw le rs ws mi o)) = Stat.init ∧
    Conn.writeStatOf (pconnPEReset (Conn.pconn raw le rs ws mi o)) = Stat.init ∧
    deadlinesZero (Conn.rawOf (pconnPEReset (Conn.pconn raw le rs ws mi o))) = true ∧
    Conn.metaOf (pconnPEReset (Conn.pconn raw le rs ws mi o)) = mi ∧
    Conn.lastErrOf (pconnPEReset (Conn.pconn raw le rs ws mi o)) = le := by
  rw [pconnPEReset_pconn]
  refine ⟨rfl, rfl, ?_, rfl, rfl⟩
  exact deadlinesZero_setWriteDeadline _
    (deadlinesZero_setReadDeadline _ (deadlinesZero_setDeadline raw))

/-- C3 (amended): a recorded error is sticky — a successful `Read` or
`Write` (nil delegate error, any delegate state), any deadline setter, and
`PEReset` itself all leave the recorded error in place, and a failing
`Read` or `Write` leaves some error recorded; no operation clears it. -/
theorem lastErr_sticky (raw rawAfter : Conn) (e : Err) (rs ws : Stat)
    (mi : MetaInfo) (o : Opt) (n : Nat) (res : Option Err) (t : Int) :
    Conn.lastErrOf (pconnRead (n, none) rawAfter (Conn.pconn raw (some e) rs ws mi o)).2
      = some e ∧
    Conn.lastErrOf (pconnWrite (n, none) rawAfter (Conn.pconn raw (some e) rs ws mi o)).2
      = some e ∧
    (Conn.lastErrOf (pconnRead (n, res) rawAfter (Conn.pconn raw (some e) rs ws mi o)).2).isSome
      = true ∧
    (Conn.lastErrOf (pconnWrite (n, res) rawAfter (Conn.pconn raw (some e) rs ws mi o)).2).isSome
      = true ∧
    Conn.lastErrOf (Conn.setDeadline t (Conn.pconn raw (some e) rs ws mi o)).2 = some e ∧
    Conn.lastErrOf (Conn.setReadDeadline t (Conn.pconn raw (some e) rs ws mi o)).2 = some e ∧
    Conn.lastErrOf (Conn.setWriteDeadline t (Conn.pconn raw (some e) rs ws mi o)).2 = some e ∧
    Conn.lastErrOf (pconnPEReset (Conn.pconn raw (some e) rs ws mi o)) = some e := by
  refine ⟨rfl, rfl, ?_, ?_, ?_, ?_, ?_, ?_⟩
  · cases res <;> rfl
  · cases res <;> rfl
  · rw [setDeadline_pconn]; rfl
  · rw [setReadDeadline_pconn]; rfl
  · rw [setWriteDeadline_pconn]; rfl
  · rw [pconnPEReset_pconn]; rfl

/-- C3 (counterexample): at a concrete adapter carrying a recorded error,
`PEReset` does not clear it — contrary to the claim that the recorded
error is cleared by `PEReset` clearing the full adapter state. -/
theorem pereset_does_not_clear_lastErr :
    Conn.lastErrOf
      (pconnPEReset
        (Conn.pconn (Conn.base 0 0 0) (some (Err.other 3)) Stat.init Stat.init
          (NewMetaInfo 0) ⟨0, 0⟩)) ≠ none := by decide

/-- C2: `Close` leaves the wrapped raw connection entirely unchanged (it
never closes it), records `errCloseInRW` exactly when no error was
recorded and a read or write is in flight (and otherwise keeps the
recorded error as it was), leaves markers and metadata untouched, and
returns the result of handing the updated adapter to the pool's `Put`. -/
theorem close_returns_to_pool (put : Conn → Option Err) (raw : Conn)
    (le : Option Err) (rs ws : Stat) (mi : MetaInfo) (o : Opt) :
    (pconnClose put (Conn.pconn raw le rs ws mi o)).1
        = put (closeUpdate (Conn.pconn raw le rs ws mi o)) ∧
    Conn.rawOf (pconnClose put (Conn.pconn raw le rs ws mi o)).2 = raw ∧
    ((le = none ∧ isDoing rs ws = true) →
      Conn.lastErrOf (pconnClose put (Conn.pconn raw le rs ws mi o)).2
        = some Err.closeInRW) ∧
    (¬(le = none ∧ isDoing rs ws = true) →
      Conn.lastErrOf (pconnClose put (Conn.pconn raw le rs ws mi o)).2 = le) ∧
    Conn.readStatOf (pconnClose put (Conn.pconn raw le rs ws mi o)).2 = rs ∧
    Conn.writeStatOf (pconnClose put (Conn.pconn raw le rs ws mi o)).2 = ws ∧
    Conn.metaOf (pconnClose put (Conn.pconn raw le rs ws mi o)).2 = mi := by
  refine ⟨rfl, rfl, ?_, ?_, rfl, rfl, rfl⟩
  · rintro ⟨h1, h2⟩
    subst h1
    simp [pconnClose, closeUpdate, Conn.lastErrOf, h2]
  · intro h
    cases le with
    | some x => simp [pconnClose, closeUpdate, Conn.lastErrOf]
    | none =>
        have h2 : isDoing rs ws = false := by
          cases hd : isDoing rs ws
          · rfl
          · exact absurd ⟨rfl, hd⟩ h
        simp [pconnClose, closeUpdate, Conn.lastErrOf, h2]

/-- C2 (witness): concrete evaluation of the `Close` theorem — an adapter
closed mid-read with no prior error records `errCloseInRW`. -/
theorem close_returns_to_pool_witness :
    Conn.lastErrOf
      (pconnClose (fun _ => none)
        (Conn.pconn (Conn.base 0 0 0) none Stat.start Stat.init
          (NewMetaInfo 0) ⟨0, 0⟩)).2 = some Err.closeInRW :=
  (close_returns_to_pool (fun _ => none) (Conn.base 0 0 0) none Stat.start Stat.init
    (NewMetaInfo 0) ⟨0, 0⟩).2.2.1 ⟨rfl, by decide⟩

theorem pconnPEActive_eq (probe : Conn → Option Err) (now : Int) (raw : Conn)
    (le : Option Err) (rs ws : Stat) (mi : MetaInfo) (o : Opt) :
    pconnPEActive probe now (Conn.pconn raw le rs ws mi o) =
      if le.isSome || isDoing rs ws then some Err.badValue
      else
        match MetaActive mi o now with
        | some ea => some ea
        | none =>
          match (if isPEActiver raw then pconnPEActive probe now raw else none) with
          | some ea => some ea
          | none => probe (getRawConn (Conn.pconn raw le rs ws mi o)) := by
  rw [pconnPEActive]

/-- C1: `PEActive` fails with `ErrBadValue` whenever an error is recorded
or an in-flight marker stands at `started`; otherwise the metadata
is-active check, then the nested `PEActive` when the wrapped connection
implements `PEActiver`, then the probe on `getRawConn` run in that order,
the first failing check short-circuiting all later ones (the probe being
universally quantified, an earlier failure is returned unchanged whatever
the probe would say), and nil comes back only when every applicable check
passes. -/
theorem peactive_check_order (probe : Conn → Option Err) (now : Int) (raw : Conn)
    (le : Option Err) (rs ws : Stat) (mi : MetaInfo) (o : Opt) :
    ((le ≠ none ∨ isDoing rs ws = true) →
      pconnPEActive probe now (Conn.pconn raw le rs ws mi o) = some Err.badValue) ∧
    (le = none → isDoing rs ws = false →
      ((∀ ea, MetaActive mi o now = some ea →
          pconnPEActive probe now (Conn.pconn raw le rs ws mi o) = some ea) ∧
       (MetaActive mi o now = none →
         ((∀ ea, isPEActiver raw = true → pconnPEActive probe now raw = some ea →
             pconnPEActive probe now (Conn.pconn raw le rs ws mi o) = some ea) ∧
          ((isPEActiver raw = true → pconnPEActive probe now raw = none) →
            pconnPEActive probe now (Conn.pconn raw le rs ws mi o)
              = probe (getRawConn (Conn.pconn raw le rs ws mi o))))))) ∧
    (pconnPEActive probe now (Conn.pconn raw le rs ws mi o) = none →
      le = none ∧ isDoing rs ws = false ∧ MetaActive mi o now = none ∧
      (isPEActiver raw = true → pconnPEActive probe now raw = none) ∧
      probe (getRawConn (Conn.pconn raw le rs ws mi o)) = none) := by
  refine ⟨?_, ?_, ?_⟩
  · intro h
    have hc : (le.isSome || isDoing rs ws) = true := by
      rcases h with h | h
      · cases le
        · exact absurd rfl h
        · simp
      · simp [h]
    rw [pconnPEActive_eq, if_pos hc]
  · intro hle hdo
    subst hle
    refine ⟨?_, ?_⟩
    · intro ea hM
      rw [pconnPEActive_eq, if_neg (by simp [hdo]), hM]
    · intro hM
      refine ⟨?_, ?_⟩
      · intro ea hAct hNested
        rw [pconnPEActive_eq, if_neg (by simp [hdo]), hM, hAct, if_pos rfl, hNested]
      · intro hN
        rw [pconnPEActive_eq, if_neg (by simp [hdo]), hM]
        cases hA : isPEActiver raw
        · simp
        · simp [hN hA]
  · intro h
    rw [pconnPEActive_eq] at h
    by_cases hc : (le.isSome || isDoing rs ws) = true
    · rw [if_pos hc] at h
      exact absurd h (by simp)
    · rw [if_neg hc] at h
      have hle : le = none := by
        cases le
        · rfl
        · simp at hc
      have hdo : isDoing rs ws = false := by
        cases hd : isDoing rs ws
        · rfl
        · simp [hd] at hc
      subst hle
      cases hM : MetaActive mi o now with
      | some ea => rw [hM] at h; simp at h
      | none =>
        rw [hM] at h
        cases hA : isPEActiver raw with
        | false =>
            rw [hA] at h
            simp at h
            exact ⟨rfl, hdo, rfl, by simp, h⟩
        | true =>
            rw [hA] at h
            simp only [if_pos] at h
            cases hN : pconnPEActive probe now raw with
            | some ea => rw [hN] at h; simp at h
            | none =>
                rw [hN] at h
                simp at h
                exact ⟨rfl, hdo, rfl, fun _ => rfl, h⟩

/-- C1 (witness): a concrete adapter carrying a recorded error fails
`PEActive` with `ErrBadValue`. -/
theorem peactive_check_order_witness :
    pconnPEActive (fun _ => none) 0
      (Conn.pconn (Conn.base 0 0 0) (some (Err.other 1)) Stat.init Stat.init
        (NewMetaInfo 0) ⟨0, 0⟩) = some Err.badValue :=
  (peactive_check_order (fun _ => none) 0 (Conn.base 0 0 0) (some (Err.other 1))
    Stat.init Stat.init (NewMetaInfo 0) ⟨0, 0⟩).1 (Or.inl (by decide))

/-- A concrete innermost transport connection. -/
def exBase : Conn := Conn.base 7 0 0

/-- A concrete adapter wrapping `exBase`. -/
def exInner : Conn :=
  Conn.pconn exBase none Stat.init Stat.init (NewMetaInfo 0) ⟨0, 0⟩

/-- A concrete adapter wrapping `exInner`. -/
def exMid : Conn :=
  Conn.pconn exInner none Stat.init Stat.init (NewMetaInfo 0) ⟨0, 0⟩

/-- A concrete adapter whose raw connection `exMid` is itself an adapter
wrapping the further adapter `exInner`. -/
def exOuter : Conn :=
  Conn.pconn exMid none Stat.init Stat.init (NewMetaInfo 0) ⟨0, 0⟩

/-- C8: `Raw` does return the immediately-wrapped connection, but at the
concrete nested adapter `exOuter` the connection handed to the liveness
probe is `getRawConn exOuter = exInner` — still an adapter — and not the
fully-unwrapped innermost transport connection `exBase`: `getRawConn`
unwraps exactly one level, contradicting its own doc comment (and the
claim) that the bottom-most `net.Conn` is reached. -/
theorem getRawConn_not_innermost :
    RawAccessor exOuter = exMid ∧
    getRawConn exOuter = exInner ∧
    specInnermost exOuter = exBase ∧
    getRawConn exOuter ≠ specInnermost exOuter ∧
    isPEActiver (getRawConn exOuter) = true := by decide

/-- C4: `Active` yields `ErrOutOfMaxIdleTime` exactly when `MaxIdleTime`
is positive and the idle time has reached it; otherwise it yields
`ErrOutOfMaxLife` exactly when `MaxLifeTime` is positive and the age has
reached it; otherwise nil — a zero bound disables its check, and the
idle-time check takes priority. -/
theorem meta_active_eviction (w : MetaInfo) (opt : Opt) (now : Int) :
    (MetaActive w opt now = some Err.outOfMaxIdleTime ↔
      (0 < opt.maxIdleTime ∧ opt.maxIdleTime ≤ now - w.meta.lastUseTime)) ∧
    (MetaActive w opt now = some Err.outOfMaxLife ↔
      (¬(0 < opt.maxIdleTime ∧ opt.maxIdleTime ≤ now - w.meta.lastUseTime) ∧
       0 < opt.maxLifeTime ∧ opt.maxLifeTime ≤ now - w.meta.createTime)) ∧
    (MetaActive w opt now = none ↔
      (¬(0 < opt.maxIdleTime ∧ opt.maxIdleTime ≤ now - w.meta.lastUseTime) ∧
       ¬(0 < opt.maxLifeTime ∧ opt.maxLifeTime ≤ now - w.meta.createTime))) := by
  unfold MetaActive
  split_ifs with h1 h2 <;> simp_all

/-- C4 (witness): a resource idle for 10 units against a 5-unit idle bound
is evicted with `ErrOutOfMaxIdleTime`. -/
theorem meta_active_eviction_witness :
    MetaActive (NewMetaInfo 0) ⟨5, 0⟩ 10 = some Err.outOfMaxIdleTime :=
  (meta_active_eviction (NewMetaInfo 0) ⟨5, 0⟩ 10).1.mpr (by decide)

theorem runCycles_spec (w : MetaInfo) (l : List (Int × Int)) :
    (runCycles w l).meta.usedTimes = w.meta.usedTimes + l.length ∧
    (runCycles w l).meta.usedDuration = w.meta.usedDuration + cycleSum l ∧
    (runCycles w l).meta.createTime = w.meta.createTime := by
  induction l generalizing w with
  | nil => simp [runCycles, cycleSum]
  | cons p rest ih =>
      obtain ⟨tu, ti⟩ := p
      obtain ⟨ha, hb, hc⟩ := ih (PEMarkIdle ti (PEMarkUsing tu w))
      have e1 : (PEMarkIdle ti (PEMarkUsing tu w)).meta.usedTimes
          = w.meta.usedTimes + 1 := rfl
      have e2 : (PEMarkIdle ti (PEMarkUsing tu w)).meta.usedDuration
          = w.meta.usedDuration + (ti - tu) := rfl
      have e3 : (PEMarkIdle ti (PEMarkUsing tu w)).meta.createTime
          = w.meta.createTime := rfl
      refine ⟨?_, ?_, ?_⟩
      · show (runCycles (PEMarkIdle ti (PEMarkUsing tu w)) rest).meta.usedTimes = _
        rw [ha, e1, List.length_cons]
        omega
      · show (runCycles (PEMarkIdle ti (PEMarkUsing tu w)) rest).meta.usedDuration = _
        rw [hb, e2]
        show _ = w.meta.usedDuration + ((ti - tu) + cycleSum rest)
        ring
      · show (runCycles (PEMarkIdle ti (PEMarkUsing tu w)) rest).meta.createTime = _
        rw [hc, e3]

/-- C5: `PEMarkUsing` sets `using`, stamps `lastUseTime`, and increments
`usedTimes` by one (leaving `usedDuration` and `createTime` alone);
`PEMarkIdle` adds the elapsed time since `lastUseTime` into
`usedDuration`, stamps `lastUseTime`, and clears `using` (leaving
`usedTimes` and `createTime` alone); after `k` complete cycles from a
fresh `MetaInfo`, `usedTimes` equals `k` and `usedDuration` equals the sum
of the per-cycle durations. -/
theorem mark_cycles_accounting (w : MetaInfo) (now t0 : Int) (l : List (Int × Int)) :
    (PEMarkUsing now w).usingFlag = true ∧
    (PEMarkUsing now w).meta.lastUseTime = now ∧
    (PEMarkUsing now w).meta.usedTimes = w.meta.usedTimes + 1 ∧
    (PEMarkUsing now w).meta.usedDuration = w.meta.usedDuration ∧
    (PEMarkUsing now w).meta.createTime = w.meta.createTime ∧
    (PEMarkIdle now w).usingFlag = false ∧
    (PEMarkIdle now w).meta.usedDuration
        = w.meta.usedDuration + (now - w.meta.lastUseTime) ∧
    (PEMarkIdle now w).meta.lastUseTime = now ∧
    (PEMarkIdle now w).meta.usedTimes = w.meta.usedTimes ∧
    (PEMarkIdle now w).meta.createTime = w.meta.createTime ∧
    (runCycles (NewMetaInfo t0) l).meta.usedTimes = l.length ∧
    (runCycles (NewMetaInfo t0) l).meta.usedDuration = cycleSum l := by
  refine ⟨rfl, rfl, rfl, rfl, rfl, rfl, rfl, rfl, rfl, rfl, ?_, ?_⟩
  · have h := (runCycles_spec (NewMetaInfo t0) l).1
    simpa [NewMetaInfo] using h
  · have h := (runCycles_spec (NewMetaInfo t0) l).2.1
    simpa [NewMetaInfo] using h

theorem runMOps_mono (w : MetaInfo) (l : List (MOp × Int))
    (h : nondecFrom w.meta.lastUseTime l = true) :
    w.meta.usedDuration ≤ (runMOps w l).meta.usedDuration ∧
    w.meta.usedTimes ≤ (runMOps w l).meta.usedTimes ∧
    w.meta.lastUseTime ≤ (runMOps w l).meta.lastUseTime ∧
    (runMOps w l).meta.createTime = w.meta.createTime := by
  induction l generalizing w with
  | nil => simp [runMOps]
  | cons p rest ih =>
      obtain ⟨op, r⟩ := p
      simp only [nondecFrom, Bool.and_eq_true, decide_eq_true_eq] at h
      obtain ⟨h1, h2⟩ := h
      cases op with
      | markUsing =>
          obtain ⟨a, b, c, d⟩ := ih (PEMarkUsing r w) (by simpa [PEMarkUsing] using h2)
          have e1 : (PEMarkUsing r w).meta.usedDuration = w.meta.usedDuration := rfl
          have e2 : (PEMarkUsing r w).meta.usedTimes = w.meta.usedTimes + 1 := rfl
          have e3 : (PEMarkUsing r w).meta.lastUseTime = r := rfl
          have e4 : (PEMarkUsing r w).meta.createTime = w.meta.createTime := rfl
          rw [e1] at a
          rw [e2] at b
          rw [e3] at c
          rw [e4] at d
          refine ⟨?_, ?_, ?_, ?_⟩
          · show w.meta.usedDuration
                ≤ (runMOps (PEMarkUsing r w) rest).meta.usedDuration
            exact a
          · show w.meta.usedTimes ≤ (runMOps (PEMarkUsing r w) rest).meta.usedTimes
            omega
          · show w.meta.lastUseTime
                ≤ (runMOps (PEMarkUsing r w) rest).meta.lastUseTime
            omega
          · show (runMOps (PEMarkUsing r w) rest).meta.createTime = w.meta.createTime
            exact d
      | markIdle =>
          obtain ⟨a, b, c, d⟩ := ih (PEMarkIdle r w) (by simpa [PEMarkIdle] using h2)
          have e1 : (PEMarkIdle r w).meta.usedDuration
              = w.meta.usedDuration + (r - w.meta.lastUseTime) := rfl
          have e2 : (PEMarkIdle r w).meta.usedTimes = w.meta.usedTimes := rfl
          have e3 : (PEMarkIdle r w).meta.lastUseTime = r := rfl
          have e4 : (PEMarkIdle r w).meta.createTime = w.meta.createTime := rfl
          rw [e1] at a
          rw [e2] at b
          rw [e3] at c
          rw [e4] at d
          refine ⟨?_, ?_, ?_, ?_⟩
          · show w.meta.usedDuration
                ≤ (runMOps (PEMarkIdle r w) rest).meta.usedDuration
            omega
          · show w.meta.usedTimes ≤ (runMOps (PEMarkIdle r w) rest).meta.usedTimes
            exact b
          · show w.meta.lastUseTime
                ≤ (runMOps (PEMarkIdle r w) rest).meta.lastUseTime
            omega
          · show (runMOps (PEMarkIdle r w) rest).meta.createTime = w.meta.createTime
            exact d

/-- C6: along any sequence of mark operations whose clock readings are
non-decreasing (and no earlier than the state's `lastUseTime`, itself a
past reading of the same clock), `usedDuration`, `usedTimes` and
`lastUseTime` never decrease, `createTime` is untouched, and
`NewMetaInfo` is what sets `createTime`, once, at construction. -/
theorem meta_monotonicity (w : MetaInfo) (l : List (MOp × Int)) (t : Int)
    (h : nondecFrom w.meta.lastUseTime l = true) :
    w.meta.usedDuration ≤ (runMOps w l).meta.usedDuration ∧
    w.meta.usedTimes ≤ (runMOps w l).meta.usedTimes ∧
    w.meta.lastUseTime ≤ (runMOps w l).meta.lastUseTime ∧
    (runMOps w l).meta.createTime = w.meta.createTime ∧
    (NewMetaInfo t).meta.createTime = t :=
  ⟨(runMOps_mono w l h).1, (runMOps_mono w l h).2.1, (runMOps_mono w l h).2.2.1,
   (runMOps_mono w l h).2.2.2, rfl⟩

/-- C6 (witness): a concrete two-step sequence with non-decreasing
readings keeps `usedDuration` non-decreasing. -/
theorem meta_monotonicity_witness :
    (NewMetaInfo 0).meta.usedDuration ≤
      (runMOps (NewMetaInfo 0)
        [(MOp.markUsing, 2), (MOp.markIdle, 5)]).meta.usedDuration :=
  (meta_monotonicity (NewMetaInfo 0) [(MOp.markUsing, 2), (MOp.markIdle, 5)] 0
    (by decide)).1

/-- C9: `ReadMeta` returns the metadata snapshot for a value implementing
the `PEMeta() Meta` capability and panics on every value that does not —
it never returns a `Meta` for a non-conforming value. -/
theorem readmeta_snapshot_or_panic (it : Item) :
    (∀ w, it = Item.withMeta w → ReadMeta it = ReadMetaResult.ok w.meta) ∧
    (∀ n, it = Item.plain n → ReadMeta it = ReadMetaResult.panicked ∧
      ∀ m, ReadMeta it ≠ ReadMetaResult.ok m) := by
  cases it with
  | withMeta w =>
      refine ⟨?_, ?_⟩
      · intro w2 hw
        cases hw
        rfl
      · intro n hn
        cases hn
  | plain n =>
      refine ⟨?_, ?_⟩
      · intro w hw
        cases hw
      · intro n2 hn
        refine ⟨rfl, ?_⟩
        intro m hm
        cases hm

/-- C9 (witness): `ReadMeta` panics at a concrete non-conforming value. -/
theorem readmeta_snapshot_or_panic_witness :
    ReadMeta (Item.plain 0) = ReadMetaResult.panicked :=
  ((readmeta_snapshot_or_panic (Item.plain 0)).2 0 rfl).1

end SocketPool

namespace LogEncoding

theorem lookupName_eq_none (reg : Registry) (name : String)
    (h : hasName reg name = false) : lookupName reg name = none := by
  induction reg with
  | nil => rfl
  | cons p rest ih =>
      rw [hasName, Bool.or_eq_false_iff] at h
      rw [lookupName, if_neg (by simp [h.1]), ih h.2]

theorem lookupName_append_last (reg : Registry) (name : String) (p : EncoderPool)
    (h : hasName reg name = false) :
    lookupName (reg ++ [(name, p)]) name = some p := by
  induction reg with
  | nil => simp [lookupName]
  | cons q rest ih =>
      rw [hasName, Bool.or_eq_false_iff] at h
      rw [List.cons_append, lookupName, if_neg (by simp [h.1]), ih h.2]

theorem hasName_append (reg l : Registry) (name : String) :
    hasName (reg ++ l) name = (hasName reg name || hasName l name) := by
  induction reg with
  | nil => simp [hasName]
  | cons q rest ih =>
      rw [List.cons_append, hasName, hasName, ih, Bool.or_assoc]

/-- C10: the two default names are registered from the start and answered
by the default pools; registering an existing name errors and leaves the
registry unchanged; registering a fresh name succeeds, after which
`GetEncoderPool` returns the registered pool; `GetEncoderPool` yields nil
for a name never registered; and registration keeps the default entries
in place. -/
theorem register_get_encoder_pool (reg : Registry) (name : String) (p : EncoderPool) :
    hasName initialRegistry encoderPoolNameDefaultText = true ∧
    hasName initialRegistry encoderPoolNameDefaultJSON = true ∧
    GetEncoderPool initialRegistry encoderPoolNameDefaultText
        = some DefaultTextEncoderPool ∧
    GetEncoderPool initialRegistry encoderPoolNameDefaultJSON
        = some DefaultJSONEncoderPool ∧
    (hasName reg name = true →
      RegisterEncoderPool reg name p = (some (RegError.alreadyExists name), reg)) ∧
    (hasDefaults reg = true → hasName reg name = false →
      (RegisterEncoderPool reg name p).1 = none ∧
      GetEncoderPool (RegisterEncoderPool reg name p).2 name = some p ∧
      GetEncoderPool reg name = none ∧
      hasDefaults (RegisterEncoderPool reg name p).2 = true) := by
  refine ⟨by decide, by decide, by decide, by decide, ?_, ?_⟩
  · intro h
    rw [RegisterEncoderPool, if_pos h]
  · intro hd hnot
    rw [hasDefaults, Bool.and_eq_true] at hd
    have hne1 : (name == encoderPoolNameDefaultText) = false := by
      cases he : name == encoderPoolNameDefaultText
      · rfl
      · rw [eq_of_beq he, hd.1] at hnot
        exact Bool.noConfusion hnot
    have hne2 : (name == encoderPoolNameDefaultJSON) = false := by
      cases he : name == encoderPoolNameDefaultJSON
      · rfl
      · rw [eq_of_beq he, hd.2] at hnot
        exact Bool.noConfusion hnot
    refine ⟨?_, ?_, ?_, ?_⟩
    · rw [RegisterEncoderPool, if_neg (by simp [hnot])]
    · rw [RegisterEncoderPool, if_neg (by simp [hnot])]
      rw [GetEncoderPool, if_neg (by simp [hne1]), if_neg (by simp [hne2])]
      exact lookupName_append_last reg name p hnot
    · rw [GetEncoderPool, if_neg (by simp [hne1]), if_neg (by simp [hne2])]
      exact lookupName_eq_none reg name hnot
    · rw [RegisterEncoderPool, if_neg (by simp [hnot])]
      rw [hasDefaults, hasName_append, hasName_append, hd.1, hd.2]
      rfl

/-- C10 (witness): registering a fresh name on the initial registry
succeeds and `GetEncoderPool` then returns the registered pool. -/
theorem register_get_encoder_pool_witness :
    GetEncoderPool (RegisterEncoderPool initialRegistry "metrics" 7).2 "metrics"
      = some 7 :=
  ((register_get_encoder_pool initialRegistry "metrics" 7).2.2.2.2.2
    (by decide) (by decide)).2.1

end LogEncoding
